import Mathlib

/-!
Verification development for the credential-scan pipeline in `secret.py`.

The embedding mirrors the three functions of the source:
* `locate_secret_in_repo` — fallback full-text search for a raw secret;
* `run_credential_scan_agent` — detector invocation, JSON-lines
  normalization, bounded scored report;
* `scan_github_repo` — clone into a temp dir, scan, clean up.

External effects (the filesystem seen by the search, the lines coming out
of the detector process, the clone outcome) are modelled as explicit
inputs; the Python control flow, including its truthiness tests, its
dict-`get` chains (which raise `AttributeError` on non-dict values, caught
by the outer `except Exception`), and its exception handlers, is
translated directly.
-/

/-- A JSON value as produced by `json.loads` (numbers modelled as integers). -/
inductive JsonVal where
  | null
  | bool (b : Bool)
  | num (n : Int)
  | str (s : String)
  | arr (xs : List JsonVal)
  | obj (kvs : List (String × JsonVal))

/-- Python type name of a JSON value, used in AttributeError messages. -/
def pyTypeName : JsonVal → String
  | JsonVal.null => "NoneType"
  | JsonVal.bool _ => "bool"
  | JsonVal.num _ => "int"
  | JsonVal.str _ => "str"
  | JsonVal.arr _ => "list"
  | JsonVal.obj _ => "dict"

/-- Python truthiness of a JSON value (`bool(x)`). -/
def truthy : JsonVal → Bool
  | JsonVal.null => false
  | JsonVal.bool b => b
  | JsonVal.num n => !(n == 0)
  | JsonVal.str s => !s.isEmpty
  | JsonVal.arr xs => !xs.isEmpty
  | JsonVal.obj kvs => !kvs.isEmpty

/-- Python truthiness of an optional JSON value (`None` is falsy). -/
def pyTruthyO : Option JsonVal → Bool
  | none => false
  | some j => truthy j

/-- Key lookup in an object's association list (Python dict lookup;
objects built by `json.loads` have unique keys). -/
def lookupObj : List (String × JsonVal) → String → Option JsonVal
  | [], _ => none
  | (k, v) :: rest, key => if k = key then some v else lookupObj rest key

/-- `x.get(key, dflt)`: raises `AttributeError` when `x` is not a dict. -/
def pyGetD : JsonVal → String → JsonVal → Except String JsonVal
  | JsonVal.obj kvs, k, dflt => Except.ok ((lookupObj kvs k).getD dflt)
  | j, _, _ => Except.error (pyTypeName j ++ " object has no attribute get")

/-- `x.get(key)` (default `None`): raises `AttributeError` when `x` is not a dict. -/
def pyGetN : JsonVal → String → Except String (Option JsonVal)
  | JsonVal.obj kvs, k => Except.ok (lookupObj kvs k)
  | j, _ => Except.error (pyTypeName j ++ " object has no attribute get")

/-- Python substring test `needle in hay`. -/
def strIn (needle hay : String) : Bool :=
  decide (needle.data <:+: hay.data)

/-- One entry of `pathlib.Path(root).rglob("*")`, in traversal order:
a readable regular file with its text lines, an entry whose open/read
raises one of the caught exceptions (`UnicodeDecodeError`,
`PermissionError`, `IsADirectoryError`), or an entry for which
`is_file()` is false (directory, symlink target, ...). -/
inductive FsEntry where
  | file (path : String) (lines : List String)
  | unreadable (path : String)
  | nonfile (path : String)

/-- `for i, line in enumerate(f, start=1): if raw_secret in line: return ... i`
— first 1-based line index containing the needle. -/
def scanFileLines (needle : String) (i : Nat) : List String → Option Nat
  | [] => none
  | l :: rest => if strIn needle l then some i else scanFileLines needle (i + 1) rest

/-- The traversal loop of `locate_secret_in_repo`: first readable file
containing the needle, with the matching 1-based line number; unreadable
entries and non-files are skipped. -/
def searchFs (needle : String) : List FsEntry → Option String × Option Nat
  | [] => (none, none)
  | FsEntry.file p lines :: rest =>
    match scanFileLines needle 1 lines with
    | some i => (some p, some i)
    | none => searchFs needle rest
  | FsEntry.unreadable _ :: rest => searchFs needle rest
  | FsEntry.nonfile _ :: rest => searchFs needle rest

/-- `locate_secret_in_repo(repo_path, raw_secret)`: returns `(None, None)`
immediately when `raw_secret` is falsy (`None` or the empty string),
otherwise searches the repository tree. -/
def locate_secret_in_repo (root : List FsEntry) (raw_secret : Option String) :
    Option String × Option Nat :=
  match raw_secret with
  | none => (none, none)
  | some s => if s.isEmpty then (none, none) else searchFs s root

/-- Whether the traversal reaches at least one line of a readable file
(the point where `raw_secret in line` would be evaluated). -/
def hasTextLine : List FsEntry → Bool
  | [] => false
  | FsEntry.file _ (_ :: _) :: _ => true
  | _ :: rest => hasTextLine rest

/-- The call `locate_secret_in_repo(repo_path, raw)` made from the
normalizer, where `raw` is the JSON value of the `Raw` field: a string is
searched for; a falsy value returns `(None, None)` via the guard; a truthy
non-string raises `TypeError` at the first `raw_secret in line` test, so
only when some readable file line exists. -/
def locateFromRaw (root : List FsEntry) (raw : Option JsonVal) :
    Except String (Option String × Option Nat) :=
  match raw with
  | none => Except.ok (none, none)
  | some (JsonVal.str s) => Except.ok (locate_secret_in_repo root (some s))
  | some j =>
    if truthy j then
      if hasTextLine root then
        Except.error "TypeError: in <string> requires string as left operand"
      else Except.ok (none, none)
    else Except.ok (none, none)

/-- The dict appended to `findings`: keys `file`, `line`, `detector`,
`raw`, each possibly `None`. -/
structure Finding where
  file : Option JsonVal
  line : Option JsonVal
  detector : Option JsonVal
  raw : Option JsonVal

/-- The extraction
`data.get("SourceMetadata", {}).get("Data", {}).get("file")` (and
likewise `line`), plus `data.get("Raw")`; any `get` on a non-dict raises. -/
def extractParts (j : JsonVal) :
    Except String (Option JsonVal × Option JsonVal × Option JsonVal) :=
  match pyGetD j "SourceMetadata" (JsonVal.obj []) with
  | Except.error m => Except.error m
  | Except.ok sm =>
    match pyGetD sm "Data" (JsonVal.obj []) with
    | Except.error m => Except.error m
    | Except.ok d =>
      match pyGetN d "file", pyGetN d "line", pyGetN j "Raw" with
      | Except.ok file, Except.ok lin, Except.ok raw => Except.ok (file, lin, raw)
      | Except.error m, _, _ => Except.error m
      | _, Except.error m, _ => Except.error m
      | _, _, Except.error m => Except.error m

/-- The fallback guard `if (not file or not line_no) and raw`. -/
def fallbackNeeded (file lin raw : Option JsonVal) : Bool :=
  (!pyTruthyO file || !pyTruthyO lin) && pyTruthyO raw

/-- Processing of one parsed JSON line: extraction, location fallback,
and the appended finding; the `Bool` records whether
`locate_secret_in_repo` was invoked for this record. -/
def processRecordTr (root : List FsEntry) (j : JsonVal) :
    Except String (Finding × Bool) :=
  match extractParts j with
  | Except.error m => Except.error m
  | Except.ok (file, lin, raw) =>
    match pyGetN j "DetectorName" with
    | Except.error m => Except.error m
    | Except.ok dname =>
      if fallbackNeeded file lin raw then
        match locateFromRaw root raw with
        | Except.error m => Except.error m
        | Except.ok (f2, l2) =>
          Except.ok
            (⟨f2.map JsonVal.str, l2.map (fun n => JsonVal.num (Int.ofNat n)),
              dname, raw⟩, true)
      else Except.ok (⟨file, lin, dname, raw⟩, false)

/-- One line of the detector's stdout after `line.strip()` and
`json.loads`: stripped-blank (skipped before parsing), malformed
(`JSONDecodeError`, skipped), or parsed to a JSON value. -/
inductive ScanLine where
  | blank
  | malformed
  | parsed (j : JsonVal)

/-- JSON values of the successfully parsed lines, in order. -/
def parsedOf (lines : List ScanLine) : List JsonVal :=
  lines.filterMap (fun l =>
    match l with
    | ScanLine.parsed j => some j
    | _ => none)

/-- The normalization loop over stdout lines: returns the findings
appended so far and, when a record raises, the exception message (the
findings appended before the exception are discarded by the handler). -/
def normLoop (root : List FsEntry) : List ScanLine → List Finding × Option String
  | [] => ([], none)
  | ScanLine.blank :: rest => normLoop root rest
  | ScanLine.malformed :: rest => normLoop root rest
  | ScanLine.parsed j :: rest =>
    match processRecordTr root j with
    | Except.error m => ([], some m)
    | Except.ok (f, _) =>
      match normLoop root rest with
      | (fs, e) => (f :: fs, e)

/-- One entry of a report's `details` list: a finding dict, the
`{"info": ...}` sentinel, or an `{"error": ...}` dict. -/
inductive Detail where
  | finding (f : Finding)
  | info (msg : String)
  | error (msg : String)

/-- The keys of a detail entry's dict, as written in the source. -/
def detailKeys : Detail → List String
  | Detail.finding _ => ["file", "line", "detector", "raw"]
  | Detail.info _ => ["info"]
  | Detail.error _ => ["error"]

/-- The report returned by `run_credential_scan_agent` and
`scan_github_repo`. -/
structure Report where
  agent : String
  score : Nat
  details : List Detail

/-- Number of finding-shaped entries among a report's details. -/
def findingCount (r : Report) : Nat :=
  r.details.countP (fun d =>
    match d with
    | Detail.finding _ => true
    | _ => false)

/-- The error report built in the two `except` handlers. -/
def errorReport (m : String) : Report :=
  ⟨"credential_scan", 0, [Detail.error m]⟩

/-- Message of the `except FileNotFoundError` handler. -/
def notFoundMsg : String := "Trufflehog not found. Is it installed and in PATH?"

/-- Message of the `except Exception` handler. -/
def scanFailMsg (m : String) : String := "Trufflehog scan failed: " ++ m

/-- The parse-normalize-score tail of `run_credential_scan_agent`
(lines 53-106): on an uncaught record exception the generic handler's
report; otherwise `score = min(len(findings), 25)` and
`details = findings[:20] if findings else [{"info": "No secrets found"}]`. -/
def normalizeFindings (root : List FsEntry) (out : List ScanLine) : Report :=
  match normLoop root out with
  | (_, some m) => errorReport (scanFailMsg m)
  | (findings, none) =>
    ⟨"credential_scan", min findings.length 25,
      if findings.isEmpty then [Detail.info "No secrets found"]
      else (findings.take 20).map Detail.finding⟩

/-- The two argument conventions tried: `--path repo` (v3) and the
positional path (v2). -/
inductive ArgStyle where
  | flagged
  | positional

/-- Outcome of one `subprocess.run` call: `FileNotFoundError` (tool not
on PATH), some other exception, or completion with an exit code, stdout
(already split into lines) and stderr. -/
inductive InvokeOutcome where
  | notFound
  | raised (msg : String)
  | completed (returncode : Int) (stdout : List ScanLine) (stderr : String)

/-- The stderr substring that triggers the v2 retry. -/
def pathFlagSignal : String := "unknown long flag \x27--path\x27"

/-- `run_credential_scan_agent(repo_path)`: invoke the detector with the
flagged convention; retry once positionally iff the exit code is non-zero
and stderr carries the flag signal; then normalize the (final) stdout.
`FileNotFoundError` and other exceptions from either invocation are
handled as in the source. -/
def run_credential_scan_agent (root : List FsEntry)
    (det : ArgStyle → InvokeOutcome) : Report :=
  match det ArgStyle.flagged with
  | InvokeOutcome.notFound => errorReport notFoundMsg
  | InvokeOutcome.raised m => errorReport (scanFailMsg m)
  | InvokeOutcome.completed rc out serr =>
    if rc ≠ 0 ∧ strIn pathFlagSignal serr = true then
      match det ArgStyle.positional with
      | InvokeOutcome.notFound => errorReport notFoundMsg
      | InvokeOutcome.raised m => errorReport (scanFailMsg m)
      | InvokeOutcome.completed _ out2 _ => normalizeFindings root out2
    else normalizeFindings root out

/-- Outcome of `Repo.clone_from`: a materialized tree or a raised error. -/
inductive CloneOutcome where
  | cloned (root : List FsEntry)
  | raises (msg : String)

/-- Environment of one `scan_github_repo` call: the clone outcome, the
detector behaviour, and whether `shutil.rmtree` hits a deletion error
(ignored via `ignore_errors=True`). -/
structure GhEnv where
  clone : CloneOutcome
  det : ArgStyle → InvokeOutcome
  rmtreeFails : Bool

/-- Observable outcome of `scan_github_repo`: the returned report or the
propagated exception, whether the `finally` release ran, and whether the
temp dir was left behind by a swallowed deletion failure. -/
structure GhRun where
  outcome : Except String Report
  released : Bool
  leftover : Bool

/-- `scan_github_repo(repo_url)`: mkdtemp, clone, scan, and a `finally`
that always invokes `shutil.rmtree(temp_dir, ignore_errors=True)`; a
clone error propagates after the release attempt. -/
def scan_github_repo (env : GhEnv) : GhRun :=
  match env.clone with
  | CloneOutcome.raises m => ⟨Except.error m, true, env.rmtreeFails⟩
  | CloneOutcome.cloned root =>
    ⟨Except.ok (run_credential_scan_agent root env.det), true, env.rmtreeFails⟩

/-- Is an optional JSON value a string? -/
def isStrOpt : Option JsonVal → Bool
  | some (JsonVal.str _) => true
  | _ => false

/-- A parsed record in the shape the detector actually emits: a JSON
object whose `SourceMetadata` member (after the `{}` default) is an
object, whose `SourceMetadata.Data` member (after the `{}` default) is an
object, and whose `Raw` member is a string whenever the location fallback
would fire. On such records per-record processing raises no exception. -/
def wellShaped (j : JsonVal) : Bool :=
  match j with
  | JsonVal.obj kvs =>
    match (lookupObj kvs "SourceMetadata").getD (JsonVal.obj []) with
    | JsonVal.obj smkvs =>
      match (lookupObj smkvs "Data").getD (JsonVal.obj []) with
      | JsonVal.obj dkvs =>
        !(fallbackNeeded (lookupObj dkvs "file") (lookupObj dkvs "line")
            (lookupObj kvs "Raw")) || isStrOpt (lookupObj kvs "Raw")
      | _ => false
    | _ => false
  | _ => false

/-- The finding produced for a record whose processing succeeds (junk
default on the unreachable error branch). -/
def findingOf (root : List FsEntry) (j : JsonVal) : Finding :=
  match processRecordTr root j with
  | Except.ok (f, _) => f
  | Except.error _ => ⟨none, none, none, none⟩

/-- A readable file entry with no line containing the needle, or a
skipped (unreadable / non-file) entry. -/
def entryClean (needle : String) : FsEntry → Bool
  | FsEntry.file _ lines => lines.all (fun l => !strIn needle l)
  | FsEntry.unreadable _ => true
  | FsEntry.nonfile _ => true

/-! ### Lemmas about the fallback search -/

theorem scanFileLines_none_iff (s : String) (ls : List String) :
    ∀ i, scanFileLines s i ls = none ↔ ∀ l ∈ ls, strIn s l = false := by
  induction ls with
  | nil => intro i; simp [scanFileLines]
  | cons l rest ih =>
    intro i
    by_cases hl : strIn s l = true
    · simp [scanFileLines, hl]
    · simp only [Bool.not_eq_true] at hl
      simp [scanFileLines, hl, ih (i + 1)]

theorem scanFileLines_some (s : String) (ls : List String) :
    ∀ i0 i, scanFileLines s i0 ls = some i →
      i0 ≤ i ∧ (∃ l, ls.get? (i - i0) = some l ∧ strIn s l = true) ∧
        ∀ k, k < i - i0 → ∀ l, ls.get? k = some l → strIn s l = false := by
  induction ls with
  | nil => intro i0 i h; simp [scanFileLines] at h
  | cons l rest ih =>
    intro i0 i h
    by_cases hl : strIn s l = true
    · simp only [scanFileLines, hl, if_true, Option.some.injEq] at h
      subst h
      refine ⟨Nat.le_refl _, ⟨l, by simp, hl⟩, ?_⟩
      intro k hk
      omega
    · simp only [Bool.not_eq_true] at hl
      simp only [scanFileLines, hl, if_false] at h
      obtain ⟨h1, ⟨l', hget, hl'⟩, hpre⟩ := ih (i0 + 1) i h
      refine ⟨by omega, ⟨l', ?_, hl'⟩, ?_⟩
      · have : i - i0 = (i - (i0 + 1)) + 1 := by omega
        rw [this, List.get?_cons_succ]
        exact hget
      · intro k hk l'' hget''
        cases k with
        | zero =>
          rw [List.get?_cons_zero] at hget''
          cases hget''
          exact hl
        | succ k' =>
          rw [List.get?_cons_succ] at hget''
          exact hpre k' (by omega) l'' hget''

theorem entryClean_file_iff (s p : String) (ls : List String) :
    entryClean s (FsEntry.file p ls) = true ↔ ∀ l ∈ ls, strIn s l = false := by
  simp [entryClean, List.all_eq_true]

theorem searchFs_none_iff (s : String) (root : List FsEntry) :
    searchFs s root = (none, none) ↔ ∀ e ∈ root, entryClean s e = true := by
  induction root with
  | nil => simp [searchFs]
  | cons e rest ih =>
    cases e with
    | file p ls =>
      cases hscan : scanFileLines s 1 ls with
      | some i =>
        simp only [searchFs, hscan]
        constructor
        · intro h; cases h
        · intro h
          have hclean := (entryClean_file_iff s p ls).mp (h _ (by simp))
          have := (scanFileLines_none_iff s ls 1).mpr hclean
          rw [this] at hscan
          cases hscan
      | none =>
        simp only [searchFs, hscan, ih]
        constructor
        · intro h
          intro e' he'
          rcases List.mem_cons.mp he' with h1 | h1
          · subst h1
            exact (entryClean_file_iff s p ls).mpr ((scanFileLines_none_iff s ls 1).mp hscan)
          · exact h e' h1
        · intro h e' he'
          exact h e' (List.mem_cons_of_mem _ he')
    | unreadable p =>
      simp only [searchFs, ih]
      constructor
      · intro h e' he'
        rcases List.mem_cons.mp he' with h1 | h1
        · subst h1; rfl
        · exact h e' h1
      · intro h e' he'
        exact h e' (List.mem_cons_of_mem _ he')
    | nonfile p =>
      simp only [searchFs, ih]
      constructor
      · intro h e' he'
        rcases List.mem_cons.mp he' with h1 | h1
        · subst h1; rfl
        · exact h e' h1
      · intro h e' he'
        exact h e' (List.mem_cons_of_mem _ he')

theorem searchFs_some_split (s : String) (root : List FsEntry) (p : String) (i : Nat)
    (h : searchFs s root = (some p, some i)) :
    ∃ pre ls suf, root = pre ++ FsEntry.file p ls :: suf ∧
      (∀ e ∈ pre, entryClean s e = true) ∧ scanFileLines s 1 ls = some i := by
  induction root with
  | nil => simp [searchFs] at h
  | cons e rest ih =>
    cases e with
    | file q ls =>
      cases hscan : scanFileLines s 1 ls with
      | some i' =>
        simp only [searchFs, hscan, Prod.mk.injEq, Option.some.injEq] at h
        obtain ⟨h1, h2⟩ := h
        subst h1
        subst h2
        exact ⟨[], ls, rest, by simp, by simp, hscan⟩
      | none =>
        simp only [searchFs, hscan] at h
        obtain ⟨pre, ls', suf, hsplit, hclean, hscan'⟩ := ih h
        refine ⟨FsEntry.file q ls :: pre, ls', suf, by simp [hsplit], ?_, hscan'⟩
        intro e' he'
        rcases List.mem_cons.mp he' with h1 | h1
        · subst h1
          exact (entryClean_file_iff s q ls).mpr ((scanFileLines_none_iff s ls 1).mp hscan)
        · exact hclean e' h1
    | unreadable q =>
      simp only [searchFs] at h
      obtain ⟨pre, ls', suf, hsplit, hclean, hscan'⟩ := ih h
      refine ⟨FsEntry.unreadable q :: pre, ls', suf, by simp [hsplit], ?_, hscan'⟩
      intro e' he'
      rcases List.mem_cons.mp he' with h1 | h1
      · subst h1; rfl
      · exact hclean e' h1
    | nonfile q =>
      simp only [searchFs] at h
      obtain ⟨pre, ls', suf, hsplit, hclean, hscan'⟩ := ih h
      refine ⟨FsEntry.nonfile q :: pre, ls', suf, by simp [hsplit], ?_, hscan'⟩
      intro e' he'
      rcases List.mem_cons.mp he' with h1 | h1
      · subst h1; rfl
      · exact hclean e' h1

theorem searchFs_shape (s : String) (root : List FsEntry) :
    searchFs s root = (none, none) ∨ ∃ p i, searchFs s root = (some p, some i) := by
  induction root with
  | nil => exact Or.inl rfl
  | cons e rest ih =>
    cases e with
    | file q ls =>
      cases hscan : scanFileLines s 1 ls with
      | some i' => exact Or.inr ⟨q, i', by simp [searchFs, hscan]⟩
      | none => simpa [searchFs, hscan] using ih
    | unreadable q => simpa [searchFs] using ih
    | nonfile q => simpa [searchFs] using ih

theorem searchFs_skip_unreadable (s : String) :
    ∀ pre p suf, searchFs s (pre ++ FsEntry.unreadable p :: suf) = searchFs s (pre ++ suf) := by
  intro pre
  induction pre with
  | nil => intro p suf; simp [searchFs]
  | cons e rest ih =>
    intro p suf
    cases e with
    | file q ls =>
      cases hscan : scanFileLines s 1 ls with
      | some i' => simp [searchFs, hscan]
      | none => simp [searchFs, hscan, ih]
    | unreadable q => simp [searchFs, ih]
    | nonfile q => simp [searchFs, ih]

theorem searchFs_skip_nonfile (s : String) :
    ∀ pre p suf, searchFs s (pre ++ FsEntry.nonfile p :: suf) = searchFs s (pre ++ suf) := by
  intro pre
  induction pre with
  | nil => intro p suf; simp [searchFs]
  | cons e rest ih =>
    intro p suf
    cases e with
    | file q ls =>
      cases hscan : scanFileLines s 1 ls with
      | some i' => simp [searchFs, hscan]
      | none => simp [searchFs, hscan, ih]
    | unreadable q => simp [searchFs, ih]
    | nonfile q => simp [searchFs, ih]

/-! ### Lemmas about record processing and report shape -/

theorem wellShaped_ok (root : List FsEntry) (j : JsonVal) (h : wellShaped j = true) :
    ∃ f b, processRecordTr root j = Except.ok (f, b) := by
  cases j with
  | null => simp [wellShaped] at h
  | bool b => simp [wellShaped] at h
  | num n => simp [wellShaped] at h
  | str s => simp [wellShaped] at h
  | arr xs => simp [wellShaped] at h
  | obj kvs =>
    cases hsm : (lookupObj kvs "SourceMetadata").getD (JsonVal.obj []) with
    | null => simp [wellShaped, hsm] at h
    | bool b => simp [wellShaped, hsm] at h
    | num n => simp [wellShaped, hsm] at h
    | str s => simp [wellShaped, hsm] at h
    | arr xs => simp [wellShaped, hsm] at h
    | obj smkvs =>
      cases hd : (lookupObj smkvs "Data").getD (JsonVal.obj []) with
      | null => simp [wellShaped, hsm, hd] at h
      | bool b => simp [wellShaped, hsm, hd] at h
      | num n => simp [wellShaped, hsm, hd] at h
      | str s => simp [wellShaped, hsm, hd] at h
      | arr xs => simp [wellShaped, hsm, hd] at h
      | obj dkvs =>
        simp only [wellShaped, hsm, hd, Bool.or_eq_true, Bool.not_eq_true'] at h
        have hx : extractParts (JsonVal.obj kvs) =
            Except.ok (lookupObj dkvs "file", lookupObj dkvs "line", lookupObj kvs "Raw") := by
          simp [extractParts, pyGetD, pyGetN, hsm, hd]
        by_cases hfb : fallbackNeeded (lookupObj dkvs "file") (lookupObj dkvs "line")
            (lookupObj kvs "Raw") = true
        · have hstr : ∃ sv, lookupObj kvs "Raw" = some (JsonVal.str sv) := by
            rcases h with h | h
            · rw [hfb] at h; cases h
            · cases hraw : lookupObj kvs "Raw" with
              | none => rw [hraw] at h; exact absurd h (by simp [isStrOpt])
              | some v =>
                cases v with
                | str sv => exact ⟨sv, rfl⟩
                | null => rw [hraw] at h; exact absurd h (by simp [isStrOpt])
                | bool b => rw [hraw] at h; exact absurd h (by simp [isStrOpt])
                | num n => rw [hraw] at h; exact absurd h (by simp [isStrOpt])
                | arr xs => rw [hraw] at h; exact absurd h (by simp [isStrOpt])
                | obj o => rw [hraw] at h; exact absurd h (by simp [isStrOpt])
          obtain ⟨sv, hraw⟩ := hstr
          rw [hraw] at hfb
          rcases hloc : locate_secret_in_repo root (some sv) with ⟨a, b⟩
          refine ⟨⟨a.map JsonVal.str, b.map (fun n => JsonVal.num (Int.ofNat n)),
            lookupObj kvs "DetectorName", some (JsonVal.str sv)⟩, true, ?_⟩
          simp [processRecordTr, hx, pyGetN, hraw, hfb, locateFromRaw, hloc]
        · have hfb' : fallbackNeeded (lookupObj dkvs "file") (lookupObj dkvs "line")
              (lookupObj kvs "Raw") = false := by
            simpa using hfb
          refine ⟨⟨lookupObj dkvs "file", lookupObj dkvs "line",
            lookupObj kvs "DetectorName", lookupObj kvs "Raw"⟩, false, ?_⟩
          simp [processRecordTr, hx, pyGetN, hfb']

theorem normalizeFindings_score_ok (root : List FsEntry) (out : List ScanLine)
    (findings : List Finding) (h : normLoop root out = (findings, none)) :
    (normalizeFindings root out).score = min findings.length 25 := by
  simp [normalizeFindings, h]

theorem normalizeFindings_score_le (root : List FsEntry) (out : List ScanLine) :
    (normalizeFindings root out).score ≤ 25 := by
  rcases hn : normLoop root out with ⟨fs, e⟩
  cases e with
  | none =>
    simp only [normalizeFindings, hn]
    exact Nat.min_le_right _ _
  | some m => simp [normalizeFindings, hn, errorReport]

theorem normalizeFindings_details_len (root : List FsEntry) (out : List ScanLine) :
    1 ≤ (normalizeFindings root out).details.length ∧
    (normalizeFindings root out).details.length ≤ 20 := by
  rcases hn : normLoop root out with ⟨fs, e⟩
  cases e with
  | some m => simp [normalizeFindings, hn, errorReport]
  | none =>
    cases fs with
    | nil => simp [normalizeFindings, hn]
    | cons f fs' =>
      simp only [normalizeFindings, hn, List.isEmpty_cons, if_false, Bool.false_eq_true,
        List.length_map, List.length_take, List.length_cons]
      omega

theorem run_score_le (root : List FsEntry) (det : ArgStyle → InvokeOutcome) :
    (run_credential_scan_agent root det).score ≤ 25 := by
  unfold run_credential_scan_agent
  cases det ArgStyle.flagged with
  | notFound => simp [errorReport]
  | raised m => simp [errorReport]
  | completed rc out serr =>
    by_cases hc : rc ≠ 0 ∧ strIn pathFlagSignal serr = true
    · simp only [if_pos hc]
      cases det ArgStyle.positional with
      | notFound => simp [errorReport]
      | raised m => simp [errorReport]
      | completed rc2 out2 serr2 => exact normalizeFindings_score_le root out2
    · simp only [if_neg hc]
      exact normalizeFindings_score_le root out

theorem run_details_len (root : List FsEntry) (det : ArgStyle → InvokeOutcome) :
    1 ≤ (run_credential_scan_agent root det).details.length ∧
    (run_credential_scan_agent root det).details.length ≤ 20 := by
  unfold run_credential_scan_agent
  cases det ArgStyle.flagged with
  | notFound => simp [errorReport]
  | raised m => simp [errorReport]
  | completed rc out serr =>
    by_cases hc : rc ≠ 0 ∧ strIn pathFlagSignal serr = true
    · simp only [if_pos hc]
      cases det ArgStyle.positional with
      | notFound => simp [errorReport]
      | raised m => simp [errorReport]
      | completed rc2 out2 serr2 => exact normalizeFindings_details_len root out2
    · simp only [if_neg hc]
      exact normalizeFindings_details_len root out

theorem parsedOf_blank (rest : List ScanLine) :
    parsedOf (ScanLine.blank :: rest) = parsedOf rest := rfl

theorem parsedOf_malformed (rest : List ScanLine) :
    parsedOf (ScanLine.malformed :: rest) = parsedOf rest := rfl

theorem parsedOf_parsed (j : JsonVal) (rest : List ScanLine) :
    parsedOf (ScanLine.parsed j :: rest) = j :: parsedOf rest := rfl

/-! ### Claim theorems -/

/-- Claim C1, counterexample to the literal statement: on the detector
output `[{}, {"SourceMetadata": 1}]` one finding is appended during
normalization, but the `.get` chain on the second record raises
`AttributeError`, so the returned report is the generic error report with
score 0, not `min(1, 25) = 1`. -/
theorem c1_counterexample :
    (normLoop [] [ScanLine.parsed (JsonVal.obj []),
        ScanLine.parsed (JsonVal.obj [("SourceMetadata", JsonVal.num 1)])]).1.length = 1 ∧
    (normalizeFindings [] [ScanLine.parsed (JsonVal.obj []),
        ScanLine.parsed (JsonVal.obj [("SourceMetadata", JsonVal.num 1)])]).score = 0 ∧
    ¬ (normalizeFindings [] [ScanLine.parsed (JsonVal.obj []),
        ScanLine.parsed (JsonVal.obj [("SourceMetadata", JsonVal.num 1)])]).score =
      min (normLoop [] [ScanLine.parsed (JsonVal.obj []),
        ScanLine.parsed (JsonVal.obj [("SourceMetadata", JsonVal.num 1)])]).1.length 25 := by
  decide

/-- Claim C1 (amended): for every detector output on which record
processing raises no exception, the report's score equals
`min(number of findings appended, 25)`; on every path, including the
caught-exception paths, `0 ≤ score ≤ 25`, and the score is computed from
the unbounded finding count, not from the truncated details list. -/
theorem c1_score_bound_and_min (root : List FsEntry) (det : ArgStyle → InvokeOutcome)
    (out : List ScanLine) (findings : List Finding)
    (h : normLoop root out = (findings, none)) :
    (normalizeFindings root out).score = min findings.length 25 ∧
    (run_credential_scan_agent root det).score ≤ 25 :=
  ⟨normalizeFindings_score_ok root out findings h, run_score_le root det⟩

/-- Witness for C1 at the single-record output `[{}]`. -/
theorem c1_witness :
    normLoop [] [ScanLine.parsed (JsonVal.obj [])] = ([⟨none, none, none, none⟩], none) ∧
    ((normalizeFindings [] [ScanLine.parsed (JsonVal.obj [])]).score =
        min [(⟨none, none, none, none⟩ : Finding)].length 25 ∧
      (run_credential_scan_agent [] (fun _ => InvokeOutcome.notFound)).score ≤ 25) :=
  ⟨rfl, c1_score_bound_and_min [] (fun _ => InvokeOutcome.notFound)
      [ScanLine.parsed (JsonVal.obj [])] [⟨none, none, none, none⟩] rfl⟩

/-- Claim C2, counterexample to the literal statement: on the detector
output `[{"SourceMetadata": 1}]` the unbounded finding count is 0, yet
the details list is a single `{"error": ...}` entry (the record raised
`AttributeError`), not the `{"info": ...}` sentinel. -/
theorem c2_counterexample :
    (normLoop [] [ScanLine.parsed (JsonVal.obj [("SourceMetadata", JsonVal.num 1)])]).1.length = 0 ∧
    (normalizeFindings []
        [ScanLine.parsed (JsonVal.obj [("SourceMetadata", JsonVal.num 1)])]).details.length = 1 ∧
    ((normalizeFindings []
        [ScanLine.parsed (JsonVal.obj [("SourceMetadata", JsonVal.num 1)])]).details.countP
      (fun d => (detailKeys d).contains "info")) = 0 := by
  decide

/-- Claim C2 (amended): `len(details) ≤ 20` on every path; when
normalization completes without a record exception and appended zero
findings, `details` is exactly the one sentinel entry, whose dict has the
single key `info` and none of `file`/`line`/`detector`/`raw`. -/
theorem c2_details_bound_and_sentinel (root : List FsEntry) (det : ArgStyle → InvokeOutcome)
    (out : List ScanLine) (h : normLoop root out = ([], none)) :
    (run_credential_scan_agent root det).details.length ≤ 20 ∧
    (normalizeFindings root out).details = [Detail.info "No secrets found"] ∧
    detailKeys (Detail.info "No secrets found") = ["info"] := by
  refine ⟨(run_details_len root det).2, ?_, rfl⟩
  simp [normalizeFindings, h]

/-- Witness for C2 at the empty detector output. -/
theorem c2_witness :
    normLoop [] [] = ([], none) ∧
    ((run_credential_scan_agent [] (fun _ => InvokeOutcome.notFound)).details.length ≤ 20 ∧
      (normalizeFindings [] []).details = [Detail.info "No secrets found"] ∧
      detailKeys (Detail.info "No secrets found") = ["info"]) :=
  ⟨rfl, c2_details_bound_and_sentinel [] (fun _ => InvokeOutcome.notFound) [] rfl⟩

/-- Claim C3, counterexample to the literal statement: the output
`["{}", "5"]` has N = 1 valid JSON object line and M = 1 line that is not
a valid JSON object; the claim predicts no abort and exactly one finding,
but `5` parses as JSON, `(5).get(...)` raises `AttributeError`, and the
scan returns the error report with zero finding entries. -/
theorem c3_counterexample :
    (normLoop [] [ScanLine.parsed (JsonVal.obj []),
        ScanLine.parsed (JsonVal.num 5)]).2.isSome = true ∧
    findingCount (normalizeFindings [] [ScanLine.parsed (JsonVal.obj []),
        ScanLine.parsed (JsonVal.num 5)]) = 0 := by
  decide

/-- Claim C3 (amended): for every sequence of detector output lines whose
successfully parsed JSON values are all well-shaped records (JSON objects
whose `SourceMetadata`, and its `Data`, are objects when present, and
whose `Raw` is a string whenever the location fallback fires),
normalization never aborts: it yields exactly one finding per parsed
line, in input order, and blank and unparseable lines are skipped without
affecting the result. -/
theorem c3_wellshaped_lines_never_abort (root : List FsEntry) (lines : List ScanLine)
    (h : ∀ j ∈ parsedOf lines, wellShaped j = true) :
    normLoop root lines = ((parsedOf lines).map (findingOf root), none) := by
  induction lines with
  | nil => rfl
  | cons l rest ih =>
    cases l with
    | blank =>
      have := ih (fun j hj => h j (by rw [parsedOf_blank]; exact hj))
      rw [parsedOf_blank]
      simpa [normLoop] using this
    | malformed =>
      have := ih (fun j hj => h j (by rw [parsedOf_malformed]; exact hj))
      rw [parsedOf_malformed]
      simpa [normLoop] using this
    | parsed j =>
      have hj : wellShaped j = true := h j (by rw [parsedOf_parsed]; exact List.mem_cons_self j _)
      obtain ⟨f, b, hok⟩ := wellShaped_ok root j hj
      have ihr := ih (fun j' hj' => h j' (by rw [parsedOf_parsed]; exact List.mem_cons_of_mem _ hj'))
      have hfo : findingOf root j = f := by simp [findingOf, hok]
      rw [parsedOf_parsed]
      simp [normLoop, hok, ihr, hfo]

/-- Witness for C3 at a mixed output: blank line, `{}`, unparseable line. -/
theorem c3_witness :
    (∀ j ∈ parsedOf [ScanLine.blank, ScanLine.parsed (JsonVal.obj []), ScanLine.malformed],
      wellShaped j = true) ∧
    normLoop [] [ScanLine.blank, ScanLine.parsed (JsonVal.obj []), ScanLine.malformed] =
      ((parsedOf [ScanLine.blank, ScanLine.parsed (JsonVal.obj []), ScanLine.malformed]).map
        (findingOf []), none) :=
  ⟨by decide, c3_wellshaped_lines_never_abort []
    [ScanLine.blank, ScanLine.parsed (JsonVal.obj []), ScanLine.malformed] (by decide)⟩

/-- Claim C4, counterexample to the literal statement: in the record
`{"SourceMetadata": {"Data": {"file": "", "line": 7}}, "Raw": "tok"}`
both `file` and `line` are present from the detector, yet the empty
string is falsy, so `locate_secret_in_repo` is invoked (flag `true`), and
the present `file`/`line` values are discarded in favour of the search
result. -/
theorem c4_counterexample :
    extractParts (JsonVal.obj [("SourceMetadata", JsonVal.obj [("Data", JsonVal.obj
        [("file", JsonVal.str ""), ("line", JsonVal.num 7)])]), ("Raw", JsonVal.str "tok")]) =
      Except.ok (some (JsonVal.str ""), some (JsonVal.num 7), some (JsonVal.str "tok")) ∧
    processRecordTr [] (JsonVal.obj [("SourceMetadata", JsonVal.obj [("Data", JsonVal.obj
        [("file", JsonVal.str ""), ("line", JsonVal.num 7)])]), ("Raw", JsonVal.str "tok")]) =
      Except.ok (⟨none, none, none, some (JsonVal.str "tok")⟩, true) :=
  ⟨rfl, rfl⟩

/-- Claim C4 (amended): for every record whose processing completes,
`locate_secret_in_repo` is invoked exactly when (`file` is absent or
Python-falsy OR `line` is absent or Python-falsy) AND `raw` is present
and truthy; in particular it is never invoked when `raw` is empty or
absent, and never when both `file` and `line` carry truthy values. -/
theorem c4_fallback_condition (root : List FsEntry) (j : JsonVal)
    (file lin raw : Option JsonVal) (f : Finding) (b : Bool)
    (h1 : extractParts j = Except.ok (file, lin, raw))
    (h2 : processRecordTr root j = Except.ok (f, b)) :
    b = true ↔
      ((pyTruthyO file = false ∨ pyTruthyO lin = false) ∧ pyTruthyO raw = true) := by
  have hobj : ∃ kvs, j = JsonVal.obj kvs := by
    cases j with
    | obj kvs => exact ⟨kvs, rfl⟩
    | null => simp [extractParts, pyGetD] at h1
    | bool b => simp [extractParts, pyGetD] at h1
    | num n => simp [extractParts, pyGetD] at h1
    | str s => simp [extractParts, pyGetD] at h1
    | arr xs => simp [extractParts, pyGetD] at h1
  obtain ⟨kvs, rfl⟩ := hobj
  have hb : b = fallbackNeeded file lin raw := by
    simp only [processRecordTr, h1, pyGetN] at h2
    cases hfb : fallbackNeeded file lin raw with
    | true =>
      rw [hfb] at h2
      rw [if_pos rfl] at h2
      cases hlo : locateFromRaw root raw with
      | error m => rw [hlo] at h2; cases h2
      | ok v =>
        rcases v with ⟨a2, b2⟩
        rw [hlo] at h2
        simp only [Except.ok.injEq, Prod.mk.injEq] at h2
        exact h2.2.symm
    | false =>
      rw [hfb] at h2
      rw [if_neg Bool.false_ne_true] at h2
      simp only [Except.ok.injEq, Prod.mk.injEq] at h2
      exact h2.2.symm
  rw [hb]
  simp [fallbackNeeded, Bool.and_eq_true, Bool.or_eq_true, Bool.not_eq_true']

/-- Witness for C4 at the record `{"Raw": "tok"}` (no location metadata,
truthy raw): the fallback fires. -/
theorem c4_witness :
    extractParts (JsonVal.obj [("Raw", JsonVal.str "tok")]) =
      Except.ok (none, none, some (JsonVal.str "tok")) ∧
    processRecordTr [] (JsonVal.obj [("Raw", JsonVal.str "tok")]) =
      Except.ok (⟨none, none, none, some (JsonVal.str "tok")⟩, true) ∧
    (true = true ↔
      ((pyTruthyO none = false ∨ pyTruthyO none = false) ∧
        pyTruthyO (some (JsonVal.str "tok")) = true)) :=
  ⟨rfl, rfl, c4_fallback_condition [] (JsonVal.obj [("Raw", JsonVal.str "tok")])
    none none (some (JsonVal.str "tok")) ⟨none, none, none, some (JsonVal.str "tok")⟩ true rfl rfl⟩

/-- Claim C5: for every root and non-empty needle, the search skips
unreadable entries and non-files without aborting, returns the first file
in traversal order together with the first 1-based line containing the
needle as a literal substring, and returns not-found (both fields absent)
exactly when no readable file under the root contains the needle. -/
theorem c5_first_match_search (root : List FsEntry) (s : String) (h : s ≠ "") :
    ((∀ e ∈ root, entryClean s e = true) → locate_secret_in_repo root (some s) = (none, none)) ∧
    (locate_secret_in_repo root (some s) = (none, none) → ∀ e ∈ root, entryClean s e = true) ∧
    (∀ p i, locate_secret_in_repo root (some s) = (some p, some i) →
      ∃ pre ls suf, root = pre ++ FsEntry.file p ls :: suf ∧
        (∀ e ∈ pre, entryClean s e = true) ∧ 1 ≤ i ∧
        (∃ l, ls.get? (i - 1) = some l ∧ strIn s l = true) ∧
        (∀ k, k < i - 1 → ∀ l, ls.get? k = some l → strIn s l = false)) ∧
    (∀ pre p suf, locate_secret_in_repo (pre ++ FsEntry.unreadable p :: suf) (some s) =
        locate_secret_in_repo (pre ++ suf) (some s)) ∧
    (∀ pre p suf, locate_secret_in_repo (pre ++ FsEntry.nonfile p :: suf) (some s) =
        locate_secret_in_repo (pre ++ suf) (some s)) ∧
    (locate_secret_in_repo root (some s) = (none, none) ∨
      ∃ p i, locate_secret_in_repo root (some s) = (some p, some i)) := by
  have hne : s.isEmpty = false := by
    rw [Bool.eq_false_iff]
    intro hse
    exact h ((String.isEmpty_iff s).mp hse)
  have hloc : ∀ r : List FsEntry, locate_secret_in_repo r (some s) = searchFs s r := by
    intro r
    simp [locate_secret_in_repo, hne]
  refine ⟨?_, ?_, ?_, ?_, ?_, ?_⟩
  · intro hall
    rw [hloc]
    exact (searchFs_none_iff s root).mpr hall
  · intro hn
    rw [hloc] at hn
    exact (searchFs_none_iff s root).mp hn
  · intro p i hsome
    rw [hloc] at hsome
    obtain ⟨pre, ls, suf, hsplit, hclean, hscan⟩ := searchFs_some_split s root p i hsome
    obtain ⟨h1le, ⟨l, hget, hl⟩, hpre⟩ := scanFileLines_some s ls 1 i hscan
    exact ⟨pre, ls, suf, hsplit, hclean, h1le, ⟨l, hget, hl⟩, hpre⟩
  · intro pre p suf
    rw [hloc, hloc]
    exact searchFs_skip_unreadable s pre p suf
  · intro pre p suf
    rw [hloc, hloc]
    exact searchFs_skip_nonfile s pre p suf
  · rw [hloc]
    exact searchFs_shape s root

/-- Witness for C5: needle `"sec"` over a root with an unreadable entry
followed by a readable file matching on line 2. -/
theorem c5_witness :
    ("sec" : String) ≠ "" ∧
    (locate_secret_in_repo [FsEntry.unreadable "x", FsEntry.file "a.txt" ["hello", "sec here"]]
        (some "sec") = (none, none) ∨
      ∃ p i, locate_secret_in_repo
        [FsEntry.unreadable "x", FsEntry.file "a.txt" ["hello", "sec here"]]
        (some "sec") = (some p, some i)) :=
  ⟨by decide, (c5_first_match_search
    [FsEntry.unreadable "x", FsEntry.file "a.txt" ["hello", "sec here"]] "sec"
    (by decide)).2.2.2.2.2⟩

/-- Claim C6: when the detector binary cannot be resolved
(`FileNotFoundError` on the first invocation), the scan returns the fixed
report with agent `credential_scan`, score 0, and a single `error` detail
whose message contains "not found"; the normalization pipeline is not
applied (the result is this constant, independent of the repository tree
and of the retry behaviour) and no retry is attempted. -/
theorem c6_detector_unavailable_report (root : List FsEntry) (det : ArgStyle → InvokeOutcome)
    (h : det ArgStyle.flagged = InvokeOutcome.notFound) :
    run_credential_scan_agent root det =
      ⟨"credential_scan", 0, [Detail.error notFoundMsg]⟩ ∧
    strIn "not found" notFoundMsg = true ∧
    detailKeys (Detail.error notFoundMsg) = ["error"] := by
  refine ⟨?_, by decide, rfl⟩
  simp [run_credential_scan_agent, h, errorReport]

/-- Witness for C6 with a detector that is never resolvable. -/
theorem c6_witness :
    run_credential_scan_agent [] (fun _ => InvokeOutcome.notFound) =
      ⟨"credential_scan", 0, [Detail.error notFoundMsg]⟩ ∧
    strIn "not found" notFoundMsg = true ∧
    detailKeys (Detail.error notFoundMsg) = ["error"] :=
  c6_detector_unavailable_report [] (fun _ => InvokeOutcome.notFound) rfl

/-- Claim C7: with an absent or empty needle the search returns not-found
immediately; the result is independent of the filesystem (no traversal is
observable). -/
theorem c7_empty_needle_no_traversal (root root' : List FsEntry) :
    locate_secret_in_repo root none = (none, none) ∧
    locate_secret_in_repo root (some "") = (none, none) ∧
    locate_secret_in_repo root none = locate_secret_in_repo root' none ∧
    locate_secret_in_repo root (some "") = locate_secret_in_repo root' (some "") :=
  ⟨rfl, rfl, rfl, rfl⟩

/-- Claim C8: the detector is invoked first with the flagged convention;
exactly when that invocation exits non-zero with the unrecognized-flag
signal in stderr, one positional retry is made whose stdout is used
regardless of its own exit code (no further tiers); any other completion,
including non-zero exits, has its stdout parsed directly with no retry. -/
theorem c8_flag_fallback_retry (root : List FsEntry) (det : ArgStyle → InvokeOutcome)
    (rc : Int) (out : List ScanLine) (serr : String)
    (h : det ArgStyle.flagged = InvokeOutcome.completed rc out serr) :
    (¬(rc ≠ 0 ∧ strIn pathFlagSignal serr = true) →
      run_credential_scan_agent root det = normalizeFindings root out) ∧
    ((rc ≠ 0 ∧ strIn pathFlagSignal serr = true) →
      run_credential_scan_agent root det =
        match det ArgStyle.positional with
        | InvokeOutcome.notFound => errorReport notFoundMsg
        | InvokeOutcome.raised m => errorReport (scanFailMsg m)
        | InvokeOutcome.completed _ out2 _ => normalizeFindings root out2) := by
  constructor
  · intro hc
    simp only [run_credential_scan_agent, h, if_neg hc]
  · intro hc
    simp only [run_credential_scan_agent, h, if_pos hc]

/-- Witness for C8: first invocation exits 1 with the flag signal in
stderr, so the positional retry's stdout is normalized. -/
theorem c8_witness :
    (fun _ : ArgStyle => InvokeOutcome.completed 1 ([] : List ScanLine) pathFlagSignal)
        ArgStyle.flagged = InvokeOutcome.completed 1 [] pathFlagSignal ∧
    ((1 : Int) ≠ 0 ∧ strIn pathFlagSignal pathFlagSignal = true) ∧
    run_credential_scan_agent [] (fun _ => InvokeOutcome.completed 1 [] pathFlagSignal) =
      normalizeFindings [] [] :=
  ⟨rfl, ⟨by decide, by decide⟩,
    (c8_flag_fallback_retry [] (fun _ => InvokeOutcome.completed 1 [] pathFlagSignal)
      1 [] pathFlagSignal rfl).2 ⟨by decide, by decide⟩⟩

/-- Claim C9: on every exit path of a URL-based scan — successful scan,
detector failure (which becomes a Report), or a clone exception — the
`finally` release of the temporary workspace runs; deletion failures are
swallowed (the outcome does not depend on whether `rmtree` fails); a
clone failure propagates to the caller as a raised error, never as a
Report. -/
theorem c9_workspace_release (c : CloneOutcome) (d : ArgStyle → InvokeOutcome) (b b' : Bool) :
    (scan_github_repo ⟨c, d, b⟩).released = true ∧
    (scan_github_repo ⟨c, d, b⟩).outcome = (scan_github_repo ⟨c, d, b'⟩).outcome ∧
    (∀ m, c = CloneOutcome.raises m →
      (scan_github_repo ⟨c, d, b⟩).outcome = Except.error m) := by
  refine ⟨?_, ?_, ?_⟩
  · cases c <;> rfl
  · cases c <;> rfl
  · intro m hm
    subst hm
    rfl

/-- Witness for C9 with a failing clone. -/
theorem c9_witness :
    (scan_github_repo ⟨CloneOutcome.raises "boom", fun _ => InvokeOutcome.notFound,
      false⟩).outcome = Except.error "boom" :=
  (c9_workspace_release (CloneOutcome.raises "boom") (fun _ => InvokeOutcome.notFound)
    false false).2.2 "boom" rfl

/-- Claim C10: every report returned by the scan — detector unavailable,
generic invocation error, record-processing error, zero findings
(sentinel), or one-or-more findings (truncated at 20) — has a details
list of length at least 1 and at most 20. -/
theorem c10_details_nonempty_bounded (root : List FsEntry) (det : ArgStyle → InvokeOutcome) :
    1 ≤ (run_credential_scan_agent root det).details.length ∧
    (run_credential_scan_agent root det).details.length ≤ 20 :=
  run_details_len root det
